import Mathlib

/-!
Verification of the nwatch backend (file-event-to-client-broadcast pipeline)
against its specification.  The Python sources under src/backend are shallowly
embedded as executable Lean definitions:

* pure helpers become Lean functions on List Char / String;
* Python exceptions become an explicit PyErr value threaded through Except
  (or a final Option PyErr component where the mutation order matters);
* the JSON values read from disk become an inductive Json type, and a file
  whose bytes fail to decode is modelled as a missing Json value (none);
* Python dicts (the step cache, JSON objects) become association lists with
  the dict operations (ordered, replace-in-place on key collision);
* the single-threaded asyncio event loop of main.py becomes a trace semantics:
  each segment of code between genuine suspension points is one atomic step.

Python restrictions noted where relevant: int() is modelled over ASCII digits,
sign, surrounding ASCII whitespace and underscore digit grouping (the unicode
digit forms Python additionally accepts do not occur in this system).
-/

namespace NWatch

/-- Python exception classes that the backend can raise or catch. -/
inductive PyErr where
  | keyError (k : String)
  | valueError (m : String)
  | attributeError (m : String)
  | typeError (m : String)
  | runtimeError (m : String)
  | fileNotFoundError (m : String)
  deriving DecidableEq, Repr

/-- JSON values as produced by json.load in adapters/json_file_repository.py.
Numbers are modelled as integers; no claim inspects fractional values. -/
inductive Json where
  | null
  | bool (b : Bool)
  | num (n : Int)
  | str (s : String)
  | arr (xs : List Json)
  | obj (kvs : List (String × Json))
  deriving Repr

/-- StepStatus enum from domain/step.py. -/
inductive StepStatus where
  | pending
  | in_progress
  | completed
  | failed
  | skipped
  deriving DecidableEq, Repr

/-- The value attribute of a StepStatus member. -/
def StepStatus.value : StepStatus → String
  | .pending => "pending"
  | .in_progress => "in_progress"
  | .completed => "completed"
  | .failed => "failed"
  | .skipped => "skipped"

/-- StepStatus(status_str) lookup by enum value. -/
def parseStatus (s : String) : Option StepStatus :=
  if s == "pending" then some .pending
  else if s == "in_progress" then some .in_progress
  else if s == "completed" then some .completed
  else if s == "failed" then some .failed
  else if s == "skipped" then some .skipped
  else none

/-- ASCII whitespace accepted (and stripped) by Python int parsing. -/
def isPySpace (c : Char) : Bool :=
  c == ' ' || c == '\t' || c == '\n' || c == '\r' || c == '\x0b' || c == '\x0c'

/-- Strip leading and trailing whitespace, as int() does before parsing. -/
def pyStrip (cs : List Char) : List Char :=
  ((cs.dropWhile isPySpace).reverse.dropWhile isPySpace).reverse

/-- After a first digit, a Python integer literal continues with digits,
optionally grouped by single underscores that sit between digits. -/
def digitsTail : List Char → Bool
  | [] => true
  | [c] => c.isDigit
  | c :: d :: cs =>
      if c.isDigit then digitsTail (d :: cs)
      else c == '_' && d.isDigit && digitsTail cs

/-- A nonempty run of digits with underscore grouping. -/
def digitsOk : List Char → Bool
  | [] => false
  | c :: cs => c.isDigit && digitsTail cs

/-- Whether Python int() accepts the string (ASCII fragment): optional
surrounding whitespace, optional single sign, digits with grouping. -/
def pyIntOk (cs : List Char) : Bool :=
  let t := pyStrip cs
  let t2 := match t with
    | c :: rest => if c == '+' || c == '-' then rest else t
    | [] => t
  digitsOk t2

/-- The value Python int() returns on an accepted string. -/
def pyIntVal (cs : List Char) : Int :=
  let t := pyStrip cs
  let sgn : Int := match t with
    | c :: _ => if c == '-' then -1 else 1
    | [] => 1
  let t2 := match t with
    | c :: rest => if c == '+' || c == '-' then rest else t
    | [] => t
  sgn * (((t2.filter (fun c => c != '_')).foldl
            (fun a c => 10 * a + (c.toNat - 48)) 0 : Nat) : Int)

/-- int(s) for a string argument: some value, or none for ValueError. -/
def pyInt (cs : List Char) : Option Int :=
  if pyIntOk cs then some (pyIntVal cs) else none

/-- Python str.split(sep) for a single-character separator. -/
def pySplit (sep : Char) : List Char → List (List Char)
  | [] => [[]]
  | c :: cs =>
      if c == sep then [] :: pySplit sep cs
      else
        match pySplit sep cs with
        | g :: gs => (c :: g) :: gs
        | [] => [[c]]

/-- Step._parse_version_from_task_id on a string task_id (domain/step.py):
reject when the string is falsy or has no hyphen, then split on the hyphen,
require exactly two parts, and parse each part with int(). -/
def parse_version_from_task_id (tid : List Char) : Except PyErr (Int × Int) :=
  if tid.isEmpty || !(tid.contains '-') then
    .error (.valueError "Invalid task_id format. Expected XX-YY")
  else
    match pySplit '-' tid with
    | [a, b] =>
        match pyInt a, pyInt b with
        | some major, some minor => .ok (major, minor)
        | _, _ =>
            .error (.valueError "Invalid task_id format. Both parts must be integers.")
    | _ => .error (.valueError "Invalid task_id format. Expected XX-YY")

/-- Whether a list of JSON values contains the one-character string value,
as the Python membership test over a list compares elements for equality. -/
def jsonListHasDash (xs : List Json) : Bool :=
  xs.any (fun x => match x with | .str s => s == "-" | _ => false)

/-- Step._parse_version_from_task_id applied to an arbitrary JSON value as
task_id (the field is taken from the decoded file unvalidated).  Non-string
values follow Python semantics of the checks performed on them: a falsy
value fails the first truthiness test with ValueError, the membership test
raises TypeError on non-container truthy values, and a container holding
the hyphen reaches .split and raises AttributeError. -/
def parse_version_json : Json → Except PyErr (Int × Int)
  | .str s => parse_version_from_task_id s.toList
  | .null => .error (.valueError "Invalid task_id format. Expected XX-YY")
  | .bool b =>
      if b then .error (.typeError "argument of type bool is not iterable")
      else .error (.valueError "Invalid task_id format. Expected XX-YY")
  | .num n =>
      if n == 0 then .error (.valueError "Invalid task_id format. Expected XX-YY")
      else .error (.typeError "argument of type int is not iterable")
  | .arr xs =>
      if xs.isEmpty then .error (.valueError "Invalid task_id format. Expected XX-YY")
      else if jsonListHasDash xs then
        .error (.attributeError "list object has no attribute split")
      else .error (.valueError "Invalid task_id format. Expected XX-YY")
  | .obj kvs =>
      if kvs.isEmpty then .error (.valueError "Invalid task_id format. Expected XX-YY")
      else if (kvs.map Prod.fst).contains "-" then
        .error (.attributeError "dict object has no attribute split")
      else .error (.valueError "Invalid task_id format. Expected XX-YY")

/-- Step domain entity (domain/step.py).  The auxiliary string fields are
kept as the raw JSON values from_dict stores without validating. -/
structure Step where
  task_id : String
  project_id : Json
  phase : Json
  description : Json
  status : StepStatus
  major_version : Int
  minor_version : Int
  deriving Repr

/-- Constructing Step(task_id=..., ...) with default version fields: the
post-init hook parses major and minor from task_id and fails on a bad id. -/
def stepNew (task_id : String) (project_id phase description : Json)
    (status : StepStatus) : Except PyErr Step :=
  match parse_version_from_task_id task_id.toList with
  | .ok (major, minor) =>
      .ok ⟨task_id, project_id, phase, description, status, major, minor⟩
  | .error e => .error e

/-- Lookup of a key in a decoded JSON object (first binding wins). -/
def jsonGet (kvs : List (String × Json)) (k : String) : Option Json :=
  (kvs.find? (fun p => p.1 == k)).map Prod.snd

/-- StepStatus(status_str) on an arbitrary JSON value: strings are looked up
in the enum (ValueError when absent); unhashable values (list, dict) raise
TypeError inside the enum lookup before the except ValueError clause; other
hashable non-members raise ValueError. -/
def statusOfJson : Json → Except PyErr StepStatus
  | .str s =>
      match parseStatus s with
      | some st => .ok st
      | none => .error (.valueError "Invalid status. Must be one of the StepStatus values")
  | .arr _ => .error (.typeError "unhashable type list")
  | .obj _ => .error (.typeError "unhashable type dict")
  | _ => .error (.valueError "Invalid status. Must be one of the StepStatus values")

/-- Step.from_dict (domain/step.py): on a decoded JSON value.  Order of
effects follows the source: data.get on a non-object raises AttributeError;
the validation value must be an object (default empty) or .get raises
AttributeError; the status is validated next; then the four required keys
are read in order (KeyError when absent); finally the Step constructor
parses the version from task_id. -/
def from_dict : Json → Except PyErr Step
  | .obj kvs => do
      let validation := (jsonGet kvs "validation").getD (.obj [])
      let statusJ ←
        match validation with
        | .obj vkvs => Except.ok ((jsonGet vkvs "status").getD (.str "pending"))
        | _ => Except.error (.attributeError "validation value has no attribute get")
      let status ← statusOfJson statusJ
      let taskIdJ ←
        match jsonGet kvs "task_id" with
        | some v => Except.ok v
        | none => Except.error (.keyError "task_id")
      let projectId ←
        match jsonGet kvs "project_id" with
        | some v => Except.ok v
        | none => Except.error (.keyError "project_id")
      let phase ←
        match jsonGet kvs "phase" with
        | some v => Except.ok v
        | none => Except.error (.keyError "phase")
      let descr ←
        match jsonGet kvs "description" with
        | some v => Except.ok v
        | none => Except.error (.keyError "description")
      match parse_version_json taskIdJ with
      | .error e => Except.error e
      | .ok (major, minor) =>
          match taskIdJ with
          | .str s => Except.ok ⟨s, projectId, phase, descr, status, major, minor⟩
          | _ => Except.error (.typeError "unreachable: version parse accepts only strings")
  | _ => .error (.attributeError "decoded value has no attribute get")

/-- Step.to_dict: camelCase wire shape of an entity. -/
def Step.to_dict (s : Step) : Json :=
  .obj [("taskId", .str s.task_id), ("projectId", s.project_id),
        ("phase", s.phase), ("description", s.description),
        ("status", .str s.status.value),
        ("majorVersion", .num s.major_version),
        ("minorVersion", .num s.minor_version)]

/-- The contents of the watched folder: for each *.json file found by glob,
either its decoded JSON value, or none when the bytes fail to decode
(json.JSONDecodeError). -/
abbrev Files := List (Option Json)

/-- The exception classes _read_step_file catches besides JSONDecodeError. -/
def isCaughtByRead : PyErr → Bool
  | .keyError _ => true
  | .valueError _ => true
  | _ => false

/-- JsonFileRepository._read_step_file: decode failures give None, and
from_dict failures of the caught classes (KeyError, ValueError) give None;
any other exception class propagates to the caller. -/
def read_step_file : Option Json → Except PyErr (Option Step)
  | none => .ok none
  | some j =>
      match from_dict j with
      | .ok s => .ok (some s)
      | .error e => if isCaughtByRead e then .ok none else .error e

/-- JsonFileRepository.get_all: read every file, keep the parsed steps,
skip the files read as None; an uncaught per-file exception aborts. -/
def get_all : Files → Except PyErr (List Step)
  | [] => .ok []
  | f :: fs => do
      let s? ← read_step_file f
      let rest ← get_all fs
      match s? with
      | some s => pure (s :: rest)
      | none => pure rest

/-- JsonFileRepository.get_by_id: first step of get_all whose task_id
matches. -/
def get_by_id (files : Files) (tid : String) : Except PyErr (Option Step) := do
  let ss ← get_all files
  pure (ss.find? (fun s => s.task_id == tid))

/-- JsonFileRepository.refresh delegates to get_by_id. -/
def refresh (files : Files) (tid : String) : Except PyErr (Option Step) :=
  get_by_id files tid

/-! Python dict operations used by the step cache (insertion ordered,
replace-in-place on an existing key). -/

/-- dict assignment d k = v: replace the entry of an existing key in
place, keeping insertion order, or append a new binding at the end. -/
def dictInsert : List (String × Step) → String → Step → List (String × Step)
  | [], k, v => [(k, v)]
  | p :: d, k, v => if p.1 == k then (k, v) :: d else p :: dictInsert d k v

/-- dict lookup d.get(k). -/
def dictLookup (d : List (String × Step)) (k : String) : Option Step :=
  (d.find? (fun p => p.1 == k)).map Prod.snd

/-- dict d.pop(k, None): the prior value if present, and the dict without k. -/
def dictPop (d : List (String × Step)) (k : String) :
    Option Step × List (String × Step) :=
  (dictLookup d k, d.filter (fun p => p.1 != k))

/-- The dict comprehension keying each step by its own task_id
(StepService._load_steps_into_cache). -/
def mkCache (ss : List Step) : List (String × Step) :=
  ss.foldl (fun d s => dictInsert d s.task_id s) []

/-! File events (domain/events.py). -/

/-- FileEventType enum. -/
inductive FileEventType where
  | created
  | modified
  | deleted
  deriving DecidableEq, Repr

/-- The value attribute of a FileEventType member. -/
def FileEventType.value : FileEventType → String
  | .created => "created"
  | .modified => "modified"
  | .deleted => "deleted"

/-- FileEvent frozen dataclass. -/
structure FileEvent where
  event_type : FileEventType
  file_path : String
  deriving DecidableEq, Repr

/-! StepService (application/step_service.py). -/

/-- os.path.basename on a posix path: the part after the last slash. -/
def basenameL (cs : List Char) : List Char :=
  (pySplit '/' cs).getLastD []

/-- Strip a trailing .json extension when present (endswith then slicing
off the last five characters). -/
def stripJsonExt (cs : List Char) : List Char :=
  if decide (5 ≤ cs.length) && decide (cs.drop (cs.length - 5) = ['.', 'j', 's', 'o', 'n']) then
    cs.take (cs.length - 5)
  else cs

/-- The anchored regex of _extract_task_id_from_path: exactly two digits,
a hyphen, and two digits. -/
def isTaskIdFormat (cs : List Char) : Bool :=
  match cs with
  | [a, b, h, c, d] => a.isDigit && b.isDigit && h == '-' && c.isDigit && d.isDigit
  | _ => false

/-- StepService._extract_task_id_from_path: basename, optional .json strip,
then the task id pattern test; None on mismatch. -/
def extract_task_id_from_path (file_path : String) : Option String :=
  let fn := stripJsonExt (basenameL file_path.toList)
  if isTaskIdFormat fn then some (String.mk fn) else none

/-- The mutable fields of a StepService instance: the steps cache, the
watching flag, and whether a callback is registered. -/
structure ServiceState where
  cache : List (String × Step)
  watching : Bool
  hasCallback : Bool
  deriving Repr

/-- StepService._handle_file_event: resolve the task id from the path (give
up silently when it does not match); on delete pop the cache entry and pass
the popped value to the callback; on create or modify refresh the step from
the repository (an uncaught repository exception propagates before any
mutation), store it in the cache when found, and invoke the callback with
the event type value and the refreshed step or None.  The result is the new
state, the callback invocation if one was made, and the escaped exception
if one was raised. -/
def handle_file_event (files : Files) (st : ServiceState) (ev : FileEvent) :
    ServiceState × Option (String × Option Step) × Option PyErr :=
  match extract_task_id_from_path ev.file_path with
  | none => (st, none, none)
  | some task_id =>
      let event_type := ev.event_type.value
      if ev.event_type = FileEventType.deleted then
        let pc := dictPop st.cache task_id
        ({ st with cache := pc.2 },
         if st.hasCallback then some (event_type, pc.1) else none, none)
      else
        match refresh files task_id with
        | .error e => (st, none, some e)
        | .ok (some s) =>
            ({ st with cache := dictInsert st.cache task_id s },
             if st.hasCallback then some (event_type, some s) else none, none)
        | .ok none =>
            (st, if st.hasCallback then some (event_type, none) else none, none)

/-- Outbound client message (main.py and the websocket endpoint). -/
inductive Msg where
  | init (steps : List Step)
  | update (s : Step)
  | remove (taskId : String)
  deriving Repr

/-- main.handle_step_update: the broadcastable message for a callback
invocation, or none when the coroutine returns without broadcasting. -/
def handle_step_update (event_type : String) (step : Option Step) : Option Msg :=
  match step with
  | some s =>
      if event_type == "deleted" then some (.remove s.task_id)
      else some (.update s)
  | none => none

/-- StepService.start_watching: raise RuntimeError when already watching;
otherwise load the cache when empty (a repository exception propagates with
the state unmutated), record the callback, start the file watcher (which
raises FileNotFoundError when the folder is gone: the callback assignment
has already happened by then), and set the watching flag.  Returns the state
as mutated so far together with the exception, if any. -/
def start_watching (files : Files) (folderOk : Bool) (st : ServiceState) :
    ServiceState × Option PyErr :=
  if st.watching then
    (st, some (.runtimeError "StepService is already watching for changes"))
  else
    match (if st.cache.isEmpty then (get_all files).map some else .ok none) with
    | .error e => (st, some e)
    | .ok loaded =>
        let st1 :=
          match loaded with
          | some ss => { st with cache := mkCache ss }
          | none => st
        let st2 := { st1 with hasCallback := true }
        if folderOk then ({ st2 with watching := true }, none)
        else (st2, some (.fileNotFoundError "Folder does not exist"))

/-- StepService.stop_watching: a logged no-op when not watching; otherwise
stop the watcher, clear the watching flag and the callback. -/
def stop_watching (st : ServiceState) : ServiceState × Option PyErr :=
  if !st.watching then (st, none)
  else ({ st with watching := false, hasCallback := false }, none)

/-- StepService.get_all_steps: load the cache from the repository when it is
empty, then return the cached values; a repository exception propagates with
the cache unmutated. -/
def get_all_steps (files : Files) (st : ServiceState) :
    Except PyErr (ServiceState × List Step) :=
  if st.cache.isEmpty then
    match get_all files with
    | .error e => .error e
    | .ok ss =>
        let st1 := { st with cache := mkCache ss }
        .ok (st1, st1.cache.map Prod.snd)
  else .ok (st, st.cache.map Prod.snd)

/-- The service state after a connection performed its snapshot read (the
lazy cache load of get_all_steps); unchanged when the read raised. -/
def connectSvc (files : Files) (svc : ServiceState) : ServiceState :=
  match get_all_steps files svc with
  | .ok r => r.1
  | .error _ => svc

/-- The snapshot list a successfully connected client is sent. -/
def connectSnap (files : Files) (svc : ServiceState) : List Step :=
  match get_all_steps files svc with
  | .ok r => r.2
  | .error _ => []

/-! ConnectionManager (application/connection_manager.py).  Client channels
are identified by natural numbers; whether the send to a channel raises
during the current pass is an external fact modelled by a predicate. -/

/- json.dumps on the Json model (mutual with its list and object forms).
The exact formatting is irrelevant to every claim; what matters is that the
broadcast serializes once and hands every channel this one string. -/
mutual

/-- Serialize a Json value. -/
def dumpsJson : Json → String
  | .null => "null"
  | .bool b => if b then "true" else "false"
  | .num n => toString n
  | .str s => "\x22" ++ s ++ "\x22"
  | .arr xs => "[" ++ dumpsArr xs ++ "]"
  | .obj kvs => "\x7b" ++ dumpsObj kvs ++ "\x7d"

/-- Serialize the elements of a Json array. -/
def dumpsArr : List Json → String
  | [] => ""
  | [x] => dumpsJson x
  | x :: y :: xs => dumpsJson x ++ ", " ++ dumpsArr (y :: xs)

/-- Serialize the bindings of a Json object. -/
def dumpsObj : List (String × Json) → String
  | [] => ""
  | [kv] => "\x22" ++ kv.1 ++ "\x22: " ++ dumpsJson kv.2
  | kv :: kv2 :: kvs => "\x22" ++ kv.1 ++ "\x22: " ++ dumpsJson kv.2 ++ ", " ++ dumpsObj (kv2 :: kvs)

end

/-- The dict main.py builds for each outbound message, before serializing. -/
def msgToJson : Msg → Json
  | .init steps => .obj [("type", .str "init"), ("steps", .arr (steps.map Step.to_dict))]
  | .update s => .obj [("type", .str "update"), ("step", s.to_dict)]
  | .remove tid => .obj [("type", .str "remove"), ("taskId", .str tid)]

/-- ConnectionManager.broadcast: serialize the message once, iterate over
the active connections sending the one encoded string to each, collecting
the channels whose send raised; after the pass, remove each collected
channel from the active list (first occurrence, guarded by a membership
test).  Returns the successful deliveries in order and the new active
list. -/
def broadcast (fails : Nat → Bool) (conns : List Nat) (message : Msg) :
    List (Nat × String) × List Nat :=
  let json_message := dumpsJson (msgToJson message)
  let pass := conns.foldl
    (fun (acc : List (Nat × String) × List Nat) c =>
      if fails c then (acc.1, acc.2 ++ [c])
      else (acc.1 ++ [(c, json_message)], acc.2))
    ([], [])
  let remaining := pass.2.foldl
    (fun cs c => if cs.contains c then cs.erase c else cs) conns
  (pass.1, remaining)

/-! The composed server (main.py) as a trace semantics over the single
asyncio event loop.  Code between genuine suspension points runs atomically:
in the websocket endpoint, appending the accepted socket to the active list,
reading the snapshot from the service and enqueuing the init frame happen
with no intervening suspension that lets a broadcast interleave, so a
client connection is one atomic step; each scheduled handle_step_update
(one per debounced file event) is another. Per-channel send failures are
modelled in detail by the broadcast function above; the trace model takes
sends as succeeding, matching the claim about living connections. -/

/-- Events of the composed server: a client connects, a client disconnects,
a debounced file event reaches the service callback. -/
inductive Ev where
  | connect (c : Nat)
  | disconnect (c : Nat)
  | file (fe : FileEvent)
  deriving DecidableEq, Repr

/-- Server state: the service instance, the active connection list of the
connection manager, and the log of frames enqueued to clients. -/
structure SrvState where
  svc : ServiceState
  conns : List Nat
  log : List (Nat × Msg)
  deriving Repr

/-- A client connection (websocket_endpoint): the socket is appended to the
active list, then get_all_steps builds the snapshot (lazily loading the
cache) and the init frame is enqueued to this client only.  When the lazy
load raises, the generic exception handler disconnects the socket again:
the net effect is no state change and no frame. -/
def connectStep (files : Files) (s : SrvState) (c : Nat) : SrvState :=
  match get_all_steps files s.svc with
  | .ok (svc1, steps) =>
      { svc := svc1, conns := s.conns ++ [c], log := s.log ++ [(c, Msg.init steps)] }
  | .error _ => s

/-- A client disconnect: ConnectionManager.disconnect removes the first
occurrence of the socket when present. -/
def disconnectStep (s : SrvState) (c : Nat) : SrvState :=
  { s with conns := if s.conns.contains c then s.conns.erase c else s.conns }

/-- The message one debounced file event broadcasts: none when the handler
raised before invoking the callback or no callback was registered, and
otherwise whatever handle_step_update produced for the callback values. -/
def fileMsg (files : Files) (svc : ServiceState) (fe : FileEvent) : Option Msg :=
  let r := handle_file_event files svc fe
  match r.2.2, r.2.1 with
  | none, some cb => handle_step_update cb.1 cb.2
  | _, _ => none

/-- A debounced file event: the service translates it (possibly mutating
the cache and invoking the callback); when the callback ran and
handle_step_update produced a message, the broadcast enqueues that one
message to every active connection.  When the service raised, the timer
thread dies before invoking the callback and nothing is broadcast. -/
def fileStep (files : Files) (s : SrvState) (fe : FileEvent) : SrvState :=
  let svc1 := (handle_file_event files s.svc fe).1
  match fileMsg files s.svc fe with
  | some m => ⟨svc1, s.conns, s.log ++ s.conns.map (fun c => (c, m))⟩
  | none => ⟨svc1, s.conns, s.log⟩

/-- One event of the trace. -/
def evStep (files : Files) (s : SrvState) : Ev → SrvState
  | .connect c => connectStep files s c
  | .disconnect c => disconnectStep s c
  | .file fe => fileStep files s fe

/-- Run a trace of events from a state. -/
def runTrace (files : Files) (s : SrvState) (evs : List Ev) : SrvState :=
  evs.foldl (evStep files) s

/-- The frames enqueued to one client, in order. -/
def msgsTo (c : Nat) (log : List (Nat × Msg)) : List Msg :=
  (log.filter (fun e => e.1 == c)).map Prod.snd

/-- The messages every connected client is sent over a trace suffix: the
service evolves exactly as in the trace, and each file event contributes
the message its handle_step_update produced, when any. -/
def expectedMsgs (files : Files) : ServiceState → List Ev → List Msg
  | _, [] => []
  | svc, Ev.connect _ :: evs => expectedMsgs files (connectSvc files svc) evs
  | svc, Ev.disconnect _ :: evs => expectedMsgs files svc evs
  | svc, Ev.file fe :: evs =>
      let rest := expectedMsgs files (handle_file_event files svc fe).1 evs
      match fileMsg files svc fe with
      | some m => m :: rest
      | none => rest

/-! The debouncer (adapters/watchdog_file_watcher.py).  Each path owns an
independent cancellable timer; scheduling cancels the pending timer for
that exact path and starts a fresh one for the quiet period.  The model
processes timestamped raw notifications in arrival order: a notification
arriving before the deadline of its own pending timer cancels and replaces
it; one arriving at or after that deadline means the timer already fired
(the fired callback carries the previously recorded kind and fires at its
deadline).  Timers of distinct paths run on independent threads, so no
cross-path ordering of firings is modelled; outputs are compared per path.
Quiescence (every remaining timer eventually firing) is the drain. -/

/-- Debouncer state: fired callbacks so far (firing time, path, kind), and
the pending timer per path (deadline, kind). -/
structure DState where
  out : List (Nat × String × FileEventType)
  pend : List (String × Nat × FileEventType)
  deriving Repr

/-- Replace the pending entry of a path. -/
def pendSet (pend : List (String × Nat × FileEventType)) (p : String)
    (v : Nat × FileEventType) : List (String × Nat × FileEventType) :=
  pend.map (fun e => if e.1 == p then (p, v) else e)

/-- Lookup the pending entry of a path. -/
def pendGet (pend : List (String × Nat × FileEventType)) (p : String) :
    Option (Nat × FileEventType) :=
  (pend.find? (fun e => e.1 == p)).map Prod.snd

/-- One raw notification (_schedule_callback): cancel and replace the
pending timer of this path when the notification beats the deadline;
otherwise record the firing of the old timer and start a fresh one. -/
def dstep (D : Nat) (s : DState) (ev : Nat × String × FileEventType) : DState :=
  let t := ev.1
  let p := ev.2.1
  let k := ev.2.2
  match pendGet s.pend p with
  | some dk =>
      if t < dk.1 then { s with pend := pendSet s.pend p (t + D, k) }
      else { out := s.out ++ [(dk.1, p, dk.2)], pend := pendSet s.pend p (t + D, k) }
  | none => { s with pend := s.pend ++ [(p, (t + D, k))] }

/-- Let every remaining timer fire. -/
def drain (s : DState) : List (Nat × String × FileEventType) :=
  s.out ++ s.pend.map (fun e => (e.2.1, e.1, e.2.2))

/-- Run the debouncer over a list of timestamped raw notifications in
arrival order and let the system quiesce. -/
def debounceRun (D : Nat) (evs : List (Nat × String × FileEventType)) :
    List (Nat × String × FileEventType) :=
  drain (evs.foldl (dstep D) ⟨[], []⟩)

/-- The cache key invariant: every key maps to a step carrying that very
task id. -/
def CacheInv (d : List (String × Step)) : Prop := ∀ p ∈ d, p.2.task_id = p.1

/-! Sample concrete values used by witnesses. -/

/-- A well formed step file as decoded JSON. -/
def sampleFileJson : Json :=
  .obj [("task_id", .str "01-02"), ("project_id", .str "alpha"),
        ("phase", .str "research"), ("description", .str "demo"),
        ("validation", .obj [("status", .str "completed")])]

/-- The step that sampleFileJson parses to. -/
def sampleStep : Step :=
  ⟨"01-02", .str "alpha", .str "research", .str "demo", .completed, 1, 2⟩

/-! Lemmas about the split used by the task id parser. -/

/-- pySplit always yields at least one group. -/
lemma pySplit_ne_nil (sep : Char) : ∀ cs : List Char, pySplit sep cs ≠ []
  | [] => by simp [pySplit]
  | c :: cs => by
      simp only [pySplit]
      split
      · simp
      · split <;> simp

/-- When the separator does not occur, pySplit yields the single group. -/
lemma pySplit_of_not_contains (sep : Char) :
    ∀ cs : List Char, cs.contains sep = false → pySplit sep cs = [cs]
  | [], _ => by simp [pySplit]
  | c :: cs, h => by
      have h' : ¬sep = c ∧ sep ∉ cs := by simpa using h
      have hc : (c == sep) = false :=
        beq_eq_false_iff_ne.mpr (fun hcc => h'.1 hcc.symm)
      have htail : cs.contains sep = false := by simpa using h'.2
      simp [pySplit, hc, pySplit_of_not_contains sep cs htail]

@[simp] lemma isOk_ok {α : Type} (a : α) : (Except.ok a : Except PyErr α).isOk = true := rfl

@[simp] lemma isOk_error {α : Type} (e : PyErr) :
    (Except.error e : Except PyErr α).isOk = false := rfl

/-- The version parser succeeds exactly on a two part integer split. -/
lemma parse_version_ok_iff (cs : List Char) :
    (parse_version_from_task_id cs).isOk =
      (match pySplit '-' cs with
       | [a, b] => pyIntOk a && pyIntOk b
       | _ => false) := by
  unfold parse_version_from_task_id
  by_cases h0 : cs = []
  · subst h0
    simp [pySplit]
  · have e1 : cs.isEmpty = false := by
      cases hcs : cs.isEmpty
      · rfl
      · exact absurd (List.isEmpty_iff.mp hcs) h0
    by_cases h1 : cs.contains '-'
    · have hmem : '-' ∈ cs := by simpa using h1
      rw [if_neg (by simp [h0, hmem])]
      rcases hsp : pySplit '-' cs with _ | ⟨a, _ | ⟨b, _ | ⟨c, rest⟩⟩⟩
      · exact absurd hsp (pySplit_ne_nil '-' cs)
      · simp
      · simp only [pyInt]
        by_cases ha : pyIntOk a <;> by_cases hb : pyIntOk b <;> simp [ha, hb]
      · simp
    · have h1' : cs.contains '-' = false := by
        cases hcs : cs.contains '-'
        · rfl
        · exact absurd hcs h1
      have hnmem : '-' ∉ cs := by simpa using h1'
      rw [if_pos (by simp [hnmem]), pySplit_of_not_contains '-' cs h1']
      simp

/-- C2 amended: constructing a Step with a given task_id string succeeds
exactly when the string splits on the hyphen into exactly two parts and
each part is accepted by Python int parsing; the canonical two-digit
pattern is not required. -/
theorem stepConstructionOkIff (t : String) (pid ph d : Json) (st : StepStatus) :
    (stepNew t pid ph d st).isOk =
      (match pySplit '-' t.toList with
       | [a, b] => pyIntOk a && pyIntOk b
       | _ => false) := by
  have h := parse_version_ok_iff t.toList
  unfold stepNew
  cases hp : parse_version_from_task_id t.toList with
  | ok v =>
      rw [hp] at h
      cases v
      simpa using h.symm
  | error e =>
      rw [hp] at h
      simpa using h.symm

/-- C2 witness: the amended equivalence evaluated at the id 01-02. -/
theorem stepConstructionOkIffWitness :
    (stepNew "01-02" (Json.str "p") (Json.str "q") (Json.str "r")
        StepStatus.pending).isOk =
      (match pySplit '-' "01-02".toList with
       | [a, b] => pyIntOk a && pyIntOk b
       | _ => false) :=
  stepConstructionOkIff "01-02" (Json.str "p") (Json.str "q") (Json.str "r")
    StepStatus.pending

/-- C2 counterexample: the id 1-2 does not match the canonical two-digit
pattern the claim requires, yet Step construction succeeds on it. -/
theorem stepIdPatternNotNecessary :
    (stepNew "1-2" (Json.str "p") (Json.str "q") (Json.str "r")
        StepStatus.pending).isOk = true ∧
    isTaskIdFormat "1-2".toList = false := by
  constructor <;> rfl

/-- C3: a file whose bytes decode to a top level JSON array is malformed
input, yet the single file read raises AttributeError instead of returning
None, and that exception aborts the whole batch read. -/
theorem readStepFileArrayRaises :
    read_step_file (some (Json.arr [])) =
      .error (.attributeError "decoded value has no attribute get") ∧
    get_all [some sampleFileJson, some (Json.arr [])] =
      .error (.attributeError "decoded value has no attribute get") := by
  constructor <;> rfl

/-! Lemmas about the dict model of the step cache. -/

/-- Popping an absent key leaves the dict unchanged. -/
lemma filter_eq_self_of_lookup_none (d : List (String × Step)) (k : String)
    (h : dictLookup d k = none) : d.filter (fun p => p.1 != k) = d := by
  apply List.filter_eq_self.mpr
  intro p hp
  have hfind : d.find? (fun p => p.1 == k) = none := by
    unfold dictLookup at h
    cases hf : d.find? (fun p => p.1 == k)
    · rfl
    · rw [hf] at h; simp at h
  have := List.find?_eq_none.mp hfind p hp
  simpa [bne] using this

/-- Assignment makes the key map to the assigned value. -/
lemma dictLookup_insert (k : String) (v : Step) :
    ∀ d : List (String × Step), dictLookup (dictInsert d k v) k = some v
  | [] => by simp [dictInsert, dictLookup]
  | p :: d => by
      by_cases hpk : (p.1 == k) = true
      · simp [dictInsert, dictLookup, hpk]
      · have hpk' : (p.1 == k) = false := by simpa [Bool.not_eq_true] using hpk
        have ih := dictLookup_insert k v d
        simp only [dictInsert, hpk', Bool.false_eq_true, if_false]
        simpa [dictLookup, List.find?_cons, hpk'] using ih

/-- Assigning the same key and value twice is the same as once. -/
lemma dictInsert_insert_same (k : String) (v : Step) :
    ∀ d : List (String × Step), dictInsert (dictInsert d k v) k v = dictInsert d k v
  | [] => by simp [dictInsert]
  | p :: d => by
      by_cases hpk : (p.1 == k) = true
      · simp [dictInsert, hpk]
      · have hpk' : (p.1 == k) = false := by simpa [Bool.not_eq_true] using hpk
        have ih := dictInsert_insert_same k v d
        simp only [dictInsert, hpk', Bool.false_eq_true, if_false]
        rw [ih]

/-- With unique keys, assignment leaves exactly one entry at the key. -/
lemma length_filter_insert (k : String) (v : Step) :
    ∀ d : List (String × Step), (d.map Prod.fst).Nodup →
      ((dictInsert d k v).filter (fun p => p.1 == k)).length = 1
  | [], _ => by simp [dictInsert]
  | p :: d, hnd => by
      have hnd' : (d.map Prod.fst).Nodup := (List.nodup_cons.mp hnd).2
      by_cases hpk : (p.1 == k) = true
      · have hk : p.1 = k := by simpa using hpk
        have hrest : d.filter (fun p => p.1 == k) = [] := by
          apply List.filter_eq_nil_iff.mpr
          intro q hq
          have hpnot : p.1 ∉ d.map Prod.fst := (List.nodup_cons.mp hnd).1
          intro hc
          have hqk : q.1 = k := by simpa using hc
          exact hpnot (List.mem_map.mpr ⟨q, hq, by rw [hqk, hk]⟩)
        simp [dictInsert, hpk, hrest]
      · have hpk' : (p.1 == k) = false := by simpa [Bool.not_eq_true] using hpk
        have ih := length_filter_insert k v d hnd'
        simp only [dictInsert, hpk', Bool.false_eq_true, if_false]
        simpa [List.filter_cons, hpk'] using ih

/-- C6: a delete event whose resolved id is absent from the cache changes
nothing: the whole server state (cache, connections, frame log) is exactly
as before, so no transition reaches any client, the service raises no
exception, and the downstream handler declines to broadcast. -/
theorem deleteUnknownIsSilent (files : Files) (s : SrvState) (fe : FileEvent)
    (tid : String)
    (hdel : fe.event_type = FileEventType.deleted)
    (hres : extract_task_id_from_path fe.file_path = some tid)
    (habs : dictLookup s.svc.cache tid = none) :
    fileStep files s fe = s ∧
    (handle_file_event files s.svc fe).2.2 = none ∧
    handle_step_update fe.event_type.value none = none := by
  have hfil := filter_eq_self_of_lookup_none s.svc.cache tid habs
  have hfe : handle_file_event files s.svc fe =
      (s.svc, (if s.svc.hasCallback then some (fe.event_type.value, none) else none),
       none) := by
    unfold handle_file_event
    rw [hres]
    dsimp only
    rw [if_pos hdel]
    simp [dictPop, habs, hfil]
  have hmsg : fileMsg files s.svc fe = none := by
    unfold fileMsg
    rw [hfe]
    cases hcb : s.svc.hasCallback <;> simp [handle_step_update]
  refine ⟨?_, by rw [hfe], rfl⟩
  simp [fileStep, hmsg, hfe]

/-- C6 witness: deleting an id that was never cached. -/
theorem deleteUnknownIsSilentWitness :
    (FileEvent.mk FileEventType.deleted "/w/03-04.json").event_type =
        FileEventType.deleted ∧
    extract_task_id_from_path "/w/03-04.json" = some "03-04" ∧
    dictLookup [("01-02", sampleStep)] "03-04" = none ∧
    (fileStep [] ⟨⟨[("01-02", sampleStep)], true, true⟩, [5], []⟩
        ⟨FileEventType.deleted, "/w/03-04.json"⟩ =
          ⟨⟨[("01-02", sampleStep)], true, true⟩, [5], []⟩ ∧
      (handle_file_event [] ⟨[("01-02", sampleStep)], true, true⟩
        ⟨FileEventType.deleted, "/w/03-04.json"⟩).2.2 = none ∧
      handle_step_update FileEventType.deleted.value none = none) :=
  ⟨rfl, rfl, rfl,
   deleteUnknownIsSilent [] ⟨⟨[("01-02", sampleStep)], true, true⟩, [5], []⟩
     ⟨FileEventType.deleted, "/w/03-04.json"⟩ "03-04" rfl rfl rfl⟩

/-- C7: applying the same create or modify event twice over an unchanged
folder yields the same service output as once (in particular the cache is
unchanged by the second application), and the cache afterwards holds
exactly one entry for the id, mapping to the refreshed step. -/
theorem updateIdempotent (files : Files) (st : ServiceState) (fe : FileEvent)
    (tid : String) (s : Step)
    (hnd : (st.cache.map Prod.fst).Nodup)
    (hty : fe.event_type ≠ FileEventType.deleted)
    (hres : extract_task_id_from_path fe.file_path = some tid)
    (href : refresh files tid = .ok (some s)) :
    handle_file_event files (handle_file_event files st fe).1 fe =
      handle_file_event files st fe ∧
    dictLookup (handle_file_event files st fe).1.cache tid = some s ∧
    ((handle_file_event files st fe).1.cache.filter
        (fun p => p.1 == tid)).length = 1 := by
  have h1 : handle_file_event files st fe =
      ({ st with cache := dictInsert st.cache tid s },
       (if st.hasCallback then some (fe.event_type.value, some s) else none),
       none) := by
    unfold handle_file_event
    rw [hres]
    dsimp only
    rw [if_neg hty, href]
  have h2 : handle_file_event files { st with cache := dictInsert st.cache tid s } fe =
      ({ st with cache := dictInsert (dictInsert st.cache tid s) tid s },
       (if st.hasCallback then some (fe.event_type.value, some s) else none),
       none) := by
    unfold handle_file_event
    rw [hres]
    dsimp only
    rw [if_neg hty, href]
  refine ⟨?_, ?_, ?_⟩
  · simp only [h1]
    rw [h2, dictInsert_insert_same]
  · simp only [h1]
    exact dictLookup_insert tid s st.cache
  · simp only [h1]
    exact length_filter_insert tid s st.cache hnd

/-- C7 witness: a created event applied twice over one sample file. -/
theorem updateIdempotentWitness :
    (([] : List (String × Step)).map Prod.fst).Nodup ∧
    (FileEvent.mk FileEventType.created "/w/01-02.json").event_type ≠
        FileEventType.deleted ∧
    extract_task_id_from_path "/w/01-02.json" = some "01-02" ∧
    refresh [some sampleFileJson] "01-02" = .ok (some sampleStep) ∧
    (handle_file_event [some sampleFileJson]
        (handle_file_event [some sampleFileJson] ⟨[], true, true⟩
          ⟨FileEventType.created, "/w/01-02.json"⟩).1
        ⟨FileEventType.created, "/w/01-02.json"⟩ =
      handle_file_event [some sampleFileJson] ⟨[], true, true⟩
        ⟨FileEventType.created, "/w/01-02.json"⟩ ∧
     dictLookup (handle_file_event [some sampleFileJson] ⟨[], true, true⟩
        ⟨FileEventType.created, "/w/01-02.json"⟩).1.cache "01-02" =
       some sampleStep ∧
     ((handle_file_event [some sampleFileJson] ⟨[], true, true⟩
        ⟨FileEventType.created, "/w/01-02.json"⟩).1.cache.filter
          (fun p => p.1 == "01-02")).length = 1) :=
  ⟨List.nodup_nil, by decide, rfl, rfl,
   updateIdempotent [some sampleFileJson] ⟨[], true, true⟩
     ⟨FileEventType.created, "/w/01-02.json"⟩ "01-02" sampleStep
     List.nodup_nil (by decide) rfl rfl⟩

/-- C8: starting the watch while already watching raises RuntimeError, a
class distinct from the data errors, and mutates nothing; stopping the
watch while stopped is a benign no-op that also mutates nothing. -/
theorem lifecycleGuards (files : Files) (folderOk : Bool) (st st2 : ServiceState)
    (hw : st.watching = true) (hs : st2.watching = false) :
    start_watching files folderOk st =
      (st, some (.runtimeError "StepService is already watching for changes")) ∧
    stop_watching st2 = (st2, none) := by
  constructor
  · unfold start_watching
    rw [if_pos hw]
  · unfold stop_watching
    rw [hs]
    rfl

/-- C8 witness: a watching service started again and a stopped service
stopped again. -/
theorem lifecycleGuardsWitness :
    (⟨[], true, true⟩ : ServiceState).watching = true ∧
    (⟨[], false, false⟩ : ServiceState).watching = false ∧
    (start_watching [] true ⟨[], true, true⟩ =
      (⟨[], true, true⟩,
       some (.runtimeError "StepService is already watching for changes")) ∧
     stop_watching ⟨[], false, false⟩ = (⟨[], false, false⟩, none)) :=
  ⟨rfl, rfl, lifecycleGuards [] true ⟨[], true, true⟩ ⟨[], false, false⟩ rfl rfl⟩

/-- C9: when a logical event yields no transition (delete of an absent id,
or a refresh that found nothing), the service still invokes the registered
callback with the event type and None; suppressing the broadcast is done
only downstream, where handle_step_update returns without a message
whenever the step is None, for every event type. -/
theorem callbackAlwaysInvoked (files : Files) (st : ServiceState) (fe : FileEvent)
    (tid : String)
    (hcb : st.hasCallback = true)
    (hres : extract_task_id_from_path fe.file_path = some tid)
    (hcase : (fe.event_type = FileEventType.deleted ∧ dictLookup st.cache tid = none) ∨
             (fe.event_type ≠ FileEventType.deleted ∧ refresh files tid = .ok none)) :
    (handle_file_event files st fe).2.1 = some (fe.event_type.value, none) ∧
    ∀ ty : String, handle_step_update ty none = none := by
  refine ⟨?_, fun ty => rfl⟩
  rcases hcase with ⟨hdel, habs⟩ | ⟨hnd, href⟩
  · unfold handle_file_event
    rw [hres]
    dsimp only
    rw [if_pos hdel]
    simp [dictPop, habs, hcb]
  · unfold handle_file_event
    rw [hres]
    dsimp only
    rw [if_neg hnd, href]
    simp [hcb]

/-- C9 witness: a modify event whose refresh finds nothing (empty folder). -/
theorem callbackAlwaysInvokedWitness :
    (⟨[], true, true⟩ : ServiceState).hasCallback = true ∧
    extract_task_id_from_path "/w/01-02.json" = some "01-02" ∧
    refresh [] "01-02" = .ok none ∧
    ((handle_file_event [] ⟨[], true, true⟩
        ⟨FileEventType.modified, "/w/01-02.json"⟩).2.1 =
      some ((FileEventType.modified).value, none) ∧
     ∀ ty : String, handle_step_update ty none = none) :=
  ⟨rfl, rfl, rfl,
   callbackAlwaysInvoked [] ⟨[], true, true⟩
     ⟨FileEventType.modified, "/w/01-02.json"⟩ "01-02" rfl rfl
     (Or.inr ⟨by decide, rfl⟩)⟩

/-! Lemmas for the debouncer (C4). -/

/-- A burst on one path keeps exactly one pending timer, always rescheduled
to the latest notification. -/
lemma burst_fold (D : Nat) (p : String) :
    ∀ (rest : List (Nat × String × FileEventType))
      (out : List (Nat × String × FileEventType)) (t : Nat) (k : FileEventType),
      (∀ e ∈ rest, e.2.1 = p) →
      List.Chain' (fun a b => a.1 < b.1 ∧ b.1 < a.1 + D) ((t, p, k) :: rest) →
      rest.foldl (dstep D) ⟨out, [(p, (t + D, k))]⟩ =
        ⟨out, [(p, ((rest.getLastD (t, p, k)).1 + D,
                    (rest.getLastD (t, p, k)).2.2))]⟩
  | [], out, t, k, _, _ => by simp [List.getLastD]
  | (t', p', k') :: rest, out, t, k, hpath, hchain => by
      have hp' : p' = p := hpath (t', p', k') (List.mem_cons_self _ _)
      subst p'
      have hlt : t' < t + D := (List.chain'_cons.mp hchain).1.2
      have hstep : dstep D ⟨out, [(p, (t + D, k))]⟩ (t', p, k') =
          ⟨out, [(p, (t' + D, k'))]⟩ := by
        simp [dstep, pendGet, pendSet, hlt]
      rw [List.foldl_cons, hstep,
        burst_fold D p rest out t' k'
          (fun e he => hpath e (List.mem_cons_of_mem _ he))
          (List.chain'_cons.mp hchain).2]
      rw [List.getLastD_cons]

/-- find? as the head of the filtered list. -/
lemma find?_eq_head?_filter {α : Type} (pred : α → Bool) :
    ∀ l : List α, l.find? pred = (l.filter pred).head?
  | [] => rfl
  | x :: l => by
      by_cases hx : pred x
      · simp only [List.find?_cons, List.filter_cons, hx, if_true, List.head?_cons]
      · have hx' : pred x = false := by simpa [Bool.not_eq_true] using hx
        simp only [List.find?_cons, List.filter_cons, hx', Bool.false_eq_true,
          if_false]
        exact find?_eq_head?_filter pred l

/-- Rescheduling a foreign path is invisible to the entries of this path. -/
lemma filter_pendSet_ne (p q : String) (v : Nat × FileEventType)
    (hqp : (q == p) = false)
    (pend : List (String × Nat × FileEventType)) :
    (pendSet pend q v).filter (fun e => e.1 == p) =
      pend.filter (fun e => e.1 == p) := by
  unfold pendSet
  rw [List.filter_map]
  have h1 : pend.filter
      ((fun e => e.1 == p) ∘ (fun e => if e.1 == q then (q, v) else e)) =
      pend.filter (fun e => e.1 == p) := by
    apply List.filter_congr
    intro e _
    by_cases he : e.1 = q
    · have hqp' : q ≠ p := by simpa using hqp
      simp [he, hqp']
    · simp [he]
  rw [h1]
  have h2 : ∀ e ∈ pend.filter (fun e => e.1 == p),
      (if (e.1 == q) = true then (q, v) else e) = e := by
    intro e he
    have hp1 : e.1 = p := by simpa using (List.mem_filter.mp he).2
    have hq1 : (e.1 == q) = false := by
      rw [hp1]
      refine beq_eq_false_iff_ne.mpr (fun hpq => ?_)
      rw [hpq] at hqp
      simp at hqp
    rw [if_neg (by simp [hq1])]
  calc (pend.filter (fun e => e.1 == p)).map
        (fun e => if e.1 == q then (q, v) else e)
      = (pend.filter (fun e => e.1 == p)).map id := List.map_congr_left h2
    _ = pend.filter (fun e => e.1 == p) := List.map_id _

/-- Rescheduling this path commutes with restricting to this path. -/
lemma filter_pendSet_eq (p : String) (v : Nat × FileEventType)
    (pend : List (String × Nat × FileEventType)) :
    (pendSet pend p v).filter (fun e => e.1 == p) =
      pendSet (pend.filter (fun e => e.1 == p)) p v := by
  unfold pendSet
  rw [List.filter_map]
  congr 1
  apply List.filter_congr
  intro e _
  by_cases he : e.1 = p
  · simp [he]
  · simp [he]

/-- The two machines agree on the pending timer of the path. -/
lemma pendGet_agree (p : String) (sg sp : DState)
    (h2 : sg.pend.filter (fun e => e.1 == p) = sp.pend)
    (h3 : sp.pend.filter (fun e => e.1 == p) = sp.pend) :
    pendGet sg.pend p = pendGet sp.pend p := by
  unfold pendGet
  rw [find?_eq_head?_filter, find?_eq_head?_filter, h2, h3]

/-- Core induction for debounce independence: running the global machine
and restricting its state to one path is the same as running the machine
on the notifications of that path alone. -/
lemma indep_fold (D : Nat) (p : String) :
    ∀ (evs : List (Nat × String × FileEventType)) (sg sp : DState),
      sg.out.filter (fun o => o.2.1 == p) = sp.out →
      sg.pend.filter (fun e => e.1 == p) = sp.pend →
      sp.pend.filter (fun e => e.1 == p) = sp.pend →
      ((evs.foldl (dstep D) sg).out.filter (fun o => o.2.1 == p) =
          ((evs.filter (fun e => e.2.1 == p)).foldl (dstep D) sp).out ∧
        (evs.foldl (dstep D) sg).pend.filter (fun e => e.1 == p) =
          ((evs.filter (fun e => e.2.1 == p)).foldl (dstep D) sp).pend ∧
        ((evs.filter (fun e => e.2.1 == p)).foldl (dstep D) sp).pend.filter
            (fun e => e.1 == p) =
          ((evs.filter (fun e => e.2.1 == p)).foldl (dstep D) sp).pend)
  | [], sg, sp, h1, h2, h3 => ⟨h1, h2, h3⟩
  | (t, q, k) :: evs, sg, sp, h1, h2, h3 => by
      by_cases hq : (q == p) = true
      · have hq' : q = p := by simpa using hq
        subst hq'
        rw [List.filter_cons]
        simp only [hq, if_true]
        have hagree := pendGet_agree q sg sp h2 h3
        rcases hg : pendGet sg.pend q with _ | ⟨dl, k0⟩
        · have hsp0 : sp.pend = [] := by
            have hfind : sg.pend.find? (fun e => e.1 == q) = none :=
              Option.map_eq_none'.mp (by rw [← pendGet]; exact hg)
            have : (sg.pend.filter (fun e => e.1 == q)).head? = none := by
              rw [← find?_eq_head?_filter]; exact hfind
            rw [h2] at this
            exact List.head?_eq_none_iff.mp this
          have hgstep : dstep D sg (t, q, k) =
              ⟨sg.out, sg.pend ++ [(q, (t + D, k))]⟩ := by
            simp [dstep, hg]
          have hpstep : dstep D sp (t, q, k) =
              ⟨sp.out, sp.pend ++ [(q, (t + D, k))]⟩ := by
            have : pendGet sp.pend q = none := by rw [← hagree]; exact hg
            simp [dstep, this]
          rw [List.foldl_cons, List.foldl_cons, hgstep, hpstep]
          exact indep_fold D q evs ⟨sg.out, sg.pend ++ [(q, (t + D, k))]⟩
            ⟨sp.out, sp.pend ++ [(q, (t + D, k))]⟩ h1
            (by simp only [List.filter_append, h2]
                simp [List.filter_cons])
            (by rw [hsp0]
                simp [List.filter_cons])
        · have hspget : pendGet sp.pend q = some (dl, k0) := by
            rw [← hagree]; exact hg
          by_cases ht : t < dl
          · have hgstep : dstep D sg (t, q, k) =
                ⟨sg.out, pendSet sg.pend q (t + D, k)⟩ := by
              simp [dstep, hg, ht]
            have hpstep : dstep D sp (t, q, k) =
                ⟨sp.out, pendSet sp.pend q (t + D, k)⟩ := by
              simp [dstep, hspget, ht]
            rw [List.foldl_cons, List.foldl_cons, hgstep, hpstep]
            exact indep_fold D q evs _ _ h1
              (by simp only [filter_pendSet_eq, h2])
              (by simp only [filter_pendSet_eq, h3])
          · have hgstep : dstep D sg (t, q, k) =
                ⟨sg.out ++ [(dl, q, k0)], pendSet sg.pend q (t + D, k)⟩ := by
              simp [dstep, hg, ht]
            have hpstep : dstep D sp (t, q, k) =
                ⟨sp.out ++ [(dl, q, k0)], pendSet sp.pend q (t + D, k)⟩ := by
              simp [dstep, hspget, ht]
            rw [List.foldl_cons, List.foldl_cons, hgstep, hpstep]
            exact indep_fold D q evs _ _
              (by simp only [List.filter_append, h1]
                  simp [List.filter_cons])
              (by simp only [filter_pendSet_eq, h2])
              (by simp only [filter_pendSet_eq, h3])
      · have hq' : (q == p) = false := by simpa [Bool.not_eq_true] using hq
        rw [List.filter_cons]
        simp only [hq', Bool.false_eq_true, if_false]
        rcases hg : pendGet sg.pend q with _ | ⟨dl, k0⟩
        · have hgstep : dstep D sg (t, q, k) =
              ⟨sg.out, sg.pend ++ [(q, (t + D, k))]⟩ := by
            simp [dstep, hg]
          rw [List.foldl_cons, hgstep]
          exact indep_fold D p evs _ sp h1
            (by simp only [List.filter_append, h2]
                simp [List.filter_cons, hq'])
            h3
        · by_cases ht : t < dl
          · have hgstep : dstep D sg (t, q, k) =
                ⟨sg.out, pendSet sg.pend q (t + D, k)⟩ := by
              simp [dstep, hg, ht]
            rw [List.foldl_cons, hgstep]
            exact indep_fold D p evs _ sp h1
              (by rw [filter_pendSet_ne p q _ hq', h2])
              h3
          · have hgstep : dstep D sg (t, q, k) =
                ⟨sg.out ++ [(dl, q, k0)], pendSet sg.pend q (t + D, k)⟩ := by
              simp [dstep, hg, ht]
            rw [List.foldl_cons, hgstep]
            exact indep_fold D p evs _ sp
              (by simp only [List.filter_append, h1]
                  simp [List.filter_cons, hq'])
              (by rw [filter_pendSet_ne p q _ hq', h2])
              h3

/-- Restricting the drained output to one path matches the machine of that
path. -/
lemma drain_filter (p : String) (sg sp : DState)
    (h1 : sg.out.filter (fun o => o.2.1 == p) = sp.out)
    (h2 : sg.pend.filter (fun e => e.1 == p) = sp.pend) :
    (drain sg).filter (fun o => o.2.1 == p) = drain sp := by
  unfold drain
  rw [List.filter_append, h1, List.filter_map]
  have hpred : sg.pend.filter
      ((fun o => o.2.1 == p) ∘ (fun e => (e.2.1, e.1, e.2.2))) =
      sg.pend.filter (fun e => e.1 == p) :=
    List.filter_congr (fun e _ => rfl)
  rw [hpred, h2]

/-- C4: a burst of notifications on one path, each arriving strictly later
than the previous but before the quiet period elapses, fires exactly one
callback, at the last deadline, carrying the kind of the last notification;
and the debounced output restricted to any path equals the run over that
path's notifications alone, so distinct paths debounce independently. -/
theorem debounceBurstAndIndependence (D : Nat) (p : String) (t0 : Nat)
    (k0 : FileEventType) (rest evs : List (Nat × String × FileEventType))
    (hpath : ∀ e ∈ rest, e.2.1 = p)
    (hchain : List.Chain' (fun a b => a.1 < b.1 ∧ b.1 < a.1 + D)
        ((t0, p, k0) :: rest)) :
    debounceRun D ((t0, p, k0) :: rest) =
      [((rest.getLastD (t0, p, k0)).1 + D, p,
        (rest.getLastD (t0, p, k0)).2.2)] ∧
    (debounceRun D evs).filter (fun o => o.2.1 == p) =
      debounceRun D (evs.filter (fun e => e.2.1 == p)) := by
  constructor
  · unfold debounceRun
    have hstep0 : dstep D ⟨[], []⟩ (t0, p, k0) = ⟨[], [(p, (t0 + D, k0))]⟩ := by
      simp [dstep, pendGet]
    rw [List.foldl_cons, hstep0, burst_fold D p rest [] t0 k0 hpath hchain]
    simp [drain]
  · unfold debounceRun
    have h := indep_fold D p evs ⟨[], []⟩ ⟨[], []⟩ rfl rfl rfl
    exact drain_filter p _ _ h.1 h.2.1

/-- C4 witness: three rapid notifications on path a (quiet period 10) fire
one callback with the last kind; a mixed two path stream restricted to
path a equals the run over the a notifications alone. -/
theorem debounceBurstAndIndependenceWitness :
    (∀ e ∈ [((5 : Nat), "a", FileEventType.modified),
            ((9 : Nat), "a", FileEventType.deleted)], e.2.1 = "a") ∧
    List.Chain' (fun a b => a.1 < b.1 ∧ b.1 < a.1 + 10)
      [((0 : Nat), "a", FileEventType.created), (5, "a", FileEventType.modified),
       (9, "a", FileEventType.deleted)] ∧
    (debounceRun 10
        [(0, "a", FileEventType.created), (5, "a", FileEventType.modified),
         (9, "a", FileEventType.deleted)] =
      [(([((5 : Nat), "a", FileEventType.modified),
          ((9 : Nat), "a", FileEventType.deleted)].getLastD
            (0, "a", FileEventType.created)).1 + 10, "a",
        ([((5 : Nat), "a", FileEventType.modified),
          ((9 : Nat), "a", FileEventType.deleted)].getLastD
            (0, "a", FileEventType.created)).2.2)] ∧
     (debounceRun 10
          [(0, "a", FileEventType.created), (3, "b", FileEventType.modified),
           (9, "a", FileEventType.deleted)]).filter
        (fun o => o.2.1 == "a") =
       debounceRun 10
         ([(0, "a", FileEventType.created), (3, "b", FileEventType.modified),
           (9, "a", FileEventType.deleted)].filter
            (fun e => e.2.1 == "a"))) :=
  ⟨by decide,
   by
     refine List.chain'_cons.mpr ⟨by decide, ?_⟩
     refine List.chain'_cons.mpr ⟨by decide, ?_⟩
     exact List.chain'_singleton _,
   debounceBurstAndIndependence 10 "a" 0 FileEventType.created
     [(5, "a", FileEventType.modified), (9, "a", FileEventType.deleted)]
     [(0, "a", FileEventType.created), (3, "b", FileEventType.modified),
      (9, "a", FileEventType.deleted)]
     (by decide)
     (by
       refine List.chain'_cons.mpr ⟨by decide, ?_⟩
       refine List.chain'_cons.mpr ⟨by decide, ?_⟩
       exact List.chain'_singleton _)⟩

/-! Lemmas for the broadcast pass (C5). -/

/-- The sending pass over the active list delivers the one encoded string
to each non-failing channel in order, and collects the failing channels in
order, without touching the list being iterated. -/
lemma broadcast_pass_eq (fails : Nat → Bool) (msg : String) :
    ∀ (conns : List Nat) (acc : List (Nat × String) × List Nat),
      conns.foldl
          (fun (acc : List (Nat × String) × List Nat) c =>
            if fails c then (acc.1, acc.2 ++ [c])
            else (acc.1 ++ [(c, msg)], acc.2)) acc =
        (acc.1 ++ (conns.filter (fun c => !fails c)).map (fun c => (c, msg)),
         acc.2 ++ conns.filter fails)
  | [], acc => by simp
  | c :: conns, acc => by
      by_cases hc : fails c
      · simp only [List.foldl_cons, hc, if_true, List.filter_cons, Bool.not_true,
          Bool.false_eq_true, broadcast_pass_eq fails msg conns]
        simp [hc]
      · have hc' : fails c = false := by simpa [Bool.not_eq_true] using hc
        simp only [List.foldl_cons, hc', Bool.false_eq_true, if_false,
          List.filter_cons, broadcast_pass_eq fails msg conns]
        simp [hc']

/-- Erasing channels that are all distinct from the head leaves the head. -/
lemma removeList_cons (c : Nat) :
    ∀ (ds : List Nat) (l : List Nat), (∀ d ∈ ds, d ≠ c) →
      ds.foldl (fun cs d => if cs.contains d then cs.erase d else cs) (c :: l) =
        c :: ds.foldl (fun cs d => if cs.contains d then cs.erase d else cs) l
  | [], l, _ => rfl
  | d :: ds, l, h => by
      have hdc : d ≠ c := h d (List.mem_cons_self d ds)
      have hcd : ¬(c == d) = true := by
        simp [beq_iff_eq]
        exact fun hcd => hdc hcd.symm
      have hcontains : (c :: l).contains d = l.contains d := by
        simp [List.contains_cons]
        intro hdc'
        exact absurd hdc' hdc
      have herase : (c :: l).erase d = c :: l.erase d :=
        List.erase_cons_tail hcd
      have htail := removeList_cons c ds
      by_cases hl : l.contains d
      · simp only [List.foldl_cons, hcontains, hl, if_true, herase]
        exact htail (l.erase d) (fun e he => h e (List.mem_cons_of_mem d he))
      · have hl' : l.contains d = false := by simpa [Bool.not_eq_true] using hl
        simp only [List.foldl_cons, hcontains, hl', Bool.false_eq_true, if_false]
        exact htail l (fun e he => h e (List.mem_cons_of_mem d he))

/-- Removing the collected failing channels after the pass leaves exactly
the non-failing channels, when the active list has no duplicates. -/
lemma removeList_filter (fails : Nat → Bool) :
    ∀ l : List Nat, l.Nodup →
      (l.filter fails).foldl
          (fun cs d => if cs.contains d then cs.erase d else cs) l =
        l.filter (fun c => !fails c)
  | [], _ => rfl
  | c :: l, hnd => by
      have hnd' : l.Nodup := (List.nodup_cons.mp hnd).2
      have hcnot : c ∉ l := (List.nodup_cons.mp hnd).1
      by_cases hc : fails c
      · have hcontains : (c :: l).contains c = true := by simp
        have herase : (c :: l).erase c = l := List.erase_cons_head c l
        simp only [List.filter_cons, hc, if_true, List.foldl_cons, hcontains,
          herase, Bool.not_true, Bool.false_eq_true, if_false]
        exact removeList_filter fails l hnd'
      · have hc' : fails c = false := by simpa [Bool.not_eq_true] using hc
        have hds : ∀ d ∈ l.filter fails, d ≠ c := by
          intro d hd hdc
          exact hcnot (hdc ▸ List.mem_of_mem_filter hd)
        simp only [List.filter_cons, hc', Bool.false_eq_true, if_false,
          Bool.not_false, if_true]
        rw [removeList_cons c (l.filter fails) l hds,
          removeList_filter fails l hnd']

/-- C5: a broadcast serializes the transition once and delivers that one
encoded string to every currently registered channel whose send does not
fail, in registration order; failing channels are skipped individually and
removed only after the pass, so the new active list is exactly the
non-failing channels. -/
theorem broadcastIsolation (fails : Nat → Bool) (conns : List Nat) (m : Msg)
    (hnd : conns.Nodup) :
    (broadcast fails conns m).1 =
      (conns.filter (fun c => !fails c)).map
        (fun c => (c, dumpsJson (msgToJson m))) ∧
    (broadcast fails conns m).2 = conns.filter (fun c => !fails c) := by
  unfold broadcast
  dsimp only
  rw [broadcast_pass_eq fails (dumpsJson (msgToJson m)) conns ([], [])]
  constructor
  · simp
  · simp only [List.nil_append]
    exact removeList_filter fails conns hnd

/-- C5 witness: three registered clients where the send to client 2
throws; clients 1 and 3 still receive the one encoded message and client 2
is absent from the active set afterwards. -/
theorem broadcastIsolationWitness :
    ([1, 2, 3] : List Nat).Nodup ∧
    ([1, 2, 3].filter (fun c => !(c == 2)) = [1, 3] ∧
     ((broadcast (fun c => c == 2) [1, 2, 3] (.remove "01-02")).1 =
        ([1, 2, 3].filter (fun c => !(c == 2))).map
          (fun c => (c, dumpsJson (msgToJson (.remove "01-02")))) ∧
      (broadcast (fun c => c == 2) [1, 2, 3] (.remove "01-02")).2 =
        [1, 2, 3].filter (fun c => !(c == 2)))) :=
  ⟨by decide, by decide,
   broadcastIsolation (fun c => c == 2) [1, 2, 3] (.remove "01-02") (by decide)⟩

/-- A refreshed step carries the requested task id, because get_by_id
selects by comparing task ids. -/
lemma refresh_task_id (files : Files) (tid : String) (s : Step)
    (h : refresh files tid = .ok (some s)) : s.task_id = tid := by
  unfold refresh get_by_id at h
  cases hga : get_all files with
  | error e =>
      rw [hga] at h
      simp only [Bind.bind, Except.bind] at h
      cases h
  | ok ss =>
      rw [hga] at h
      simp only [Bind.bind, Except.bind, Pure.pure, Except.pure] at h
      have hfind : ss.find? (fun s => s.task_id == tid) = some s := by
        injection h
      have := List.find?_some hfind
      simpa using this

/-- dict assignment of a pair satisfying the invariant preserves it. -/
lemma dictInsert_inv (k : String) (v : Step) (hv : v.task_id = k) :
    ∀ d : List (String × Step), CacheInv d → CacheInv (dictInsert d k v)
  | [], _ => by
      intro p hp
      simp only [dictInsert, List.mem_singleton] at hp
      rw [hp]
      exact hv
  | q :: d, h => by
      intro p hp
      by_cases hqk : (q.1 == k) = true
      · simp only [dictInsert, hqk, if_true] at hp
        rcases List.mem_cons.mp hp with rfl | hp'
        · exact hv
        · exact h p (List.mem_cons_of_mem q hp')
      · have hqk' : (q.1 == k) = false := by simpa [Bool.not_eq_true] using hqk
        simp only [dictInsert, hqk', Bool.false_eq_true, if_false] at hp
        rcases List.mem_cons.mp hp with heq | hp'
        · subst heq
          exact h p (List.mem_cons_self p d)
        · exact dictInsert_inv k v hv d
            (fun r hr => h r (List.mem_cons_of_mem q hr)) p hp'

/-- The initial full load keys every step by its own task id. -/
lemma mkCache_inv (ss : List Step) : CacheInv (mkCache ss) := by
  have haux : ∀ (l : List Step) (d : List (String × Step)), CacheInv d →
      CacheInv (l.foldl (fun d s => dictInsert d s.task_id s) d) := by
    intro l
    induction l with
    | nil => exact fun d h => h
    | cons s l ih =>
        intro d h
        exact ih (dictInsert d s.task_id s) (dictInsert_inv s.task_id s rfl d h)
  exact haux ss [] (fun p hp => absurd hp (List.not_mem_nil p))

/-- C10: the invariant that cache keys equal the task ids of their steps is
established by the initial full load and preserved by every event handling
path. -/
theorem cacheKeyInvariant (files : Files) (ss : List Step) (st : ServiceState)
    (ev : FileEvent) (hinv : CacheInv st.cache) :
    CacheInv (mkCache ss) ∧ CacheInv (handle_file_event files st ev).1.cache := by
  refine ⟨mkCache_inv ss, ?_⟩
  unfold handle_file_event
  cases hres : extract_task_id_from_path ev.file_path with
  | none => exact hinv
  | some tid =>
      by_cases hdel : ev.event_type = FileEventType.deleted
      · dsimp only
        rw [if_pos hdel]
        exact fun p hp => hinv p (List.mem_of_mem_filter hp)
      · dsimp only
        rw [if_neg hdel]
        cases href : refresh files tid with
        | error e => exact hinv
        | ok os =>
            cases os with
            | none => exact hinv
            | some s =>
                exact dictInsert_inv tid s (refresh_task_id files tid s href)
                  st.cache hinv

/-! Lemmas for the connection protocol trace (C1). -/

/-- Unfolding one trace step. -/
lemma runTrace_cons (files : Files) (s : SrvState) (e : Ev) (evs : List Ev) :
    runTrace files s (e :: evs) = runTrace files (evStep files s e) evs := rfl

/-- A trace splits at any point. -/
lemma runTrace_append (files : Files) (s : SrvState) (l1 l2 : List Ev) :
    runTrace files s (l1 ++ l2) = runTrace files (runTrace files s l1) l2 :=
  List.foldl_append _ _ _ _

/-- handle_step_update never emits an init message. -/
lemma hsu_no_init (ty : String) (stp : Option Step) (m : Msg)
    (h : handle_step_update ty stp = some m) : ∀ steps, m ≠ Msg.init steps := by
  intro steps
  unfold handle_step_update at h
  rcases stp with _ | s
  · cases h
  · dsimp only at h
    by_cases hty : (ty == "deleted") = true
    · rw [if_pos hty] at h
      cases h
      simp
    · rw [if_neg hty] at h
      cases h
      simp

/-- A file event never broadcasts an init message. -/
lemma fileMsg_no_init (files : Files) (svc : ServiceState) (fe : FileEvent)
    (m : Msg) (h : fileMsg files svc fe = some m) :
    ∀ steps, m ≠ Msg.init steps := by
  unfold fileMsg at h
  rcases hr : handle_file_event files svc fe with ⟨svc1, cb, err⟩
  rw [hr] at h
  rcases err with _ | e
  · rcases cb with _ | cb
    · cases h
    · exact hsu_no_init _ _ _ h
  · cases h

/-- The per-transition stream contains no init message. -/
lemma expectedMsgs_no_init (files : Files) :
    ∀ (evs : List Ev) (svc : ServiceState),
      ∀ m ∈ expectedMsgs files svc evs, ∀ steps, m ≠ Msg.init steps
  | [], _ => by intro m hm; cases hm
  | Ev.connect c' :: evs, svc => by
      intro m hm
      exact expectedMsgs_no_init files evs (connectSvc files svc) m hm
  | Ev.disconnect c' :: evs, svc => by
      intro m hm
      exact expectedMsgs_no_init files evs svc m hm
  | Ev.file fe :: evs, svc => by
      intro m hm
      have hm' : m ∈ (match fileMsg files svc fe with
          | some m' => m' :: expectedMsgs files (handle_file_event files svc fe).1 evs
          | none => expectedMsgs files (handle_file_event files svc fe).1 evs) := hm
      rcases hmsg : fileMsg files svc fe with _ | m'
      · rw [hmsg] at hm'
        exact expectedMsgs_no_init files evs _ m hm'
      · rw [hmsg] at hm'
        rcases List.mem_cons.mp hm' with rfl | hmem
        · exact fileMsg_no_init files svc fe m hmsg
        · exact expectedMsgs_no_init files evs _ m hmem

/-- The frames to one client of a concatenated log. -/
lemma msgsTo_append (c : Nat) (l1 l2 : List (Nat × Msg)) :
    msgsTo c (l1 ++ l2) = msgsTo c l1 ++ msgsTo c l2 := by
  unfold msgsTo
  rw [List.filter_append, List.map_append]

/-- A broadcast pass enqueues to a client one copy of the message per
occurrence of the client in the active list. -/
lemma msgsTo_broadcast (c : Nat) (m : Msg) :
    ∀ conns : List Nat,
      msgsTo c (conns.map (fun cc => (cc, m))) =
        List.replicate (conns.count c) m
  | [] => rfl
  | cc :: conns => by
      have ih := msgsTo_broadcast c m conns
      by_cases hcc : cc = c
      · subst hcc
        simpa [msgsTo, List.count_cons, List.replicate_succ] using ih
      · simpa [msgsTo, List.count_cons, hcc] using ih

/-- With a healthy repository, the snapshot read of a connection always
succeeds, yielding the connect state and snapshot. -/
lemma get_all_steps_ok (files : Files) (ss : List Step)
    (hok : get_all files = .ok ss) (svc : ServiceState) :
    get_all_steps files svc = .ok (connectSvc files svc, connectSnap files svc) := by
  have h : ∃ r, get_all_steps files svc = .ok r := by
    unfold get_all_steps
    by_cases he : svc.cache.isEmpty
    · rw [if_pos he, hok]
      exact ⟨_, rfl⟩
    · rw [if_neg he]
      exact ⟨_, rfl⟩
  obtain ⟨r, hr⟩ := h
  unfold connectSvc connectSnap
  rw [hr]

/-- With a healthy repository, a connection registers the client and
enqueues exactly one init frame carrying the snapshot. -/
lemma connectStep_ok (files : Files) (ss : List Step)
    (hok : get_all files = .ok ss) (s : SrvState) (c : Nat) :
    connectStep files s c =
      ⟨connectSvc files s.svc, s.conns ++ [c],
       s.log ++ [(c, Msg.init (connectSnap files s.svc))]⟩ := by
  unfold connectStep
  rw [get_all_steps_ok files ss hok s.svc]

/-- Before a client ever connects, it is absent from the active list and
receives no frames, whatever the trace does. -/
lemma pre_fresh (files : Files) (c : Nat) :
    ∀ (evs : List Ev) (s : SrvState),
      s.conns.count c = 0 → msgsTo c s.log = [] →
      (∀ e ∈ evs, e ≠ Ev.connect c) →
      (runTrace files s evs).conns.count c = 0 ∧
        msgsTo c (runTrace files s evs).log = []
  | [], _, hc, hl, _ => ⟨hc, hl⟩
  | Ev.connect c' :: evs, s, hc, hl, hfr => by
      have hcc : c' ≠ c := by
        intro h
        exact (hfr _ (List.mem_cons_self _ _)) (by rw [h])
      rw [runTrace_cons]
      have hfr' : ∀ e ∈ evs, e ≠ Ev.connect c :=
        fun e he => hfr e (List.mem_cons_of_mem _ he)
      rw [show evStep files s (Ev.connect c') = connectStep files s c' from rfl]
      cases hga : get_all_steps files s.svc with
      | ok r =>
          rcases r with ⟨svc1, steps⟩
          have hstep : connectStep files s c' =
              ⟨svc1, s.conns ++ [c'], s.log ++ [(c', Msg.init steps)]⟩ := by
            unfold connectStep
            rw [hga]
          rw [hstep]
          refine pre_fresh files c evs _ ?_ ?_ hfr'
          · simp [List.count_append, List.count_cons, hcc, hc]
          · rw [msgsTo_append, hl]
            simp [msgsTo, hcc]
      | error e =>
          have hstep : connectStep files s c' = s := by
            unfold connectStep
            rw [hga]
          rw [hstep]
          exact pre_fresh files c evs s hc hl hfr'
  | Ev.disconnect c' :: evs, s, hc, hl, hfr => by
      rw [runTrace_cons]
      have hfr' : ∀ e ∈ evs, e ≠ Ev.connect c :=
        fun e he => hfr e (List.mem_cons_of_mem _ he)
      refine pre_fresh files c evs _ ?_ hl hfr'
      show (if s.conns.contains c' then s.conns.erase c' else s.conns).count c = 0
      by_cases hcon : s.conns.contains c'
      · rw [if_pos hcon]
        by_cases hcc : c' = c
        · subst hcc
          rw [List.count_erase_self, hc]
        · rw [List.count_erase_of_ne (fun h => hcc h.symm), hc]
      · rw [if_neg hcon]
        exact hc
  | Ev.file fe :: evs, s, hc, hl, hfr => by
      rw [runTrace_cons]
      have hfr' : ∀ e ∈ evs, e ≠ Ev.connect c :=
        fun e he => hfr e (List.mem_cons_of_mem _ he)
      rcases hmsg : fileMsg files s.svc fe with _ | m
      · have hstep : evStep files s (Ev.file fe) =
            ⟨(handle_file_event files s.svc fe).1, s.conns, s.log⟩ := by
          simp [evStep, fileStep, hmsg]
        rw [hstep]
        exact pre_fresh files c evs _ hc hl hfr'
      · have hstep : evStep files s (Ev.file fe) =
            ⟨(handle_file_event files s.svc fe).1, s.conns,
             s.log ++ s.conns.map (fun cc => (cc, m))⟩ := by
          simp [evStep, fileStep, hmsg]
        rw [hstep]
        refine pre_fresh files c evs _ hc ?_ hfr'
        rw [msgsTo_append, hl, msgsTo_broadcast, hc]
        rfl

/-- While a client stays connected (exactly one occurrence in the active
list, never reconnected or disconnected), the frames it is sent over a
trace suffix are exactly the expected per-transition messages. -/
lemma trace_msgs (files : Files) (ss0 : List Step)
    (hok : get_all files = .ok ss0) (c : Nat) :
    ∀ (evs : List Ev) (s : SrvState),
      s.conns.count c = 1 →
      (∀ e ∈ evs, e ≠ Ev.connect c ∧ e ≠ Ev.disconnect c) →
      msgsTo c (runTrace files s evs).log =
        msgsTo c s.log ++ expectedMsgs files s.svc evs
  | [], s, _, _ => by simp [runTrace, expectedMsgs]
  | Ev.connect c' :: evs, s, hc, hfr => by
      have hcc : c' ≠ c := by
        intro h
        exact (hfr _ (List.mem_cons_self _ _)).1 (by rw [h])
      rw [runTrace_cons]
      have hfr' := fun e he => hfr e (List.mem_cons_of_mem _ he)
      rw [show evStep files s (Ev.connect c') = connectStep files s c' from rfl,
        connectStep_ok files ss0 hok s c']
      rw [trace_msgs files ss0 hok c evs
          ⟨connectSvc files s.svc, s.conns ++ [c'],
           s.log ++ [(c', Msg.init (connectSnap files s.svc))]⟩
          (by simp [List.count_append, List.count_cons, hcc, hc]) hfr']
      rw [msgsTo_append]
      have hone : msgsTo c [(c', Msg.init (connectSnap files s.svc))] = [] := by
        simp [msgsTo, hcc]
      rw [hone, List.append_nil]
      rfl
  | Ev.disconnect c' :: evs, s, hc, hfr => by
      have hcc : c' ≠ c := by
        intro h
        exact (hfr _ (List.mem_cons_self _ _)).2 (by rw [h])
      rw [runTrace_cons]
      have hfr' := fun e he => hfr e (List.mem_cons_of_mem _ he)
      have hcount : (disconnectStep s c').conns.count c = 1 := by
        show (if s.conns.contains c' then s.conns.erase c' else s.conns).count c = 1
        by_cases hcon : s.conns.contains c'
        · rw [if_pos hcon, List.count_erase_of_ne (fun h => hcc h.symm), hc]
        · rw [if_neg hcon]
          exact hc
      rw [show evStep files s (Ev.disconnect c') = disconnectStep s c' from rfl,
        trace_msgs files ss0 hok c evs _ hcount hfr']
      rfl
  | Ev.file fe :: evs, s, hc, hfr => by
      rw [runTrace_cons]
      have hfr' := fun e he => hfr e (List.mem_cons_of_mem _ he)
      rcases hmsg : fileMsg files s.svc fe with _ | m
      · have hstep : evStep files s (Ev.file fe) =
            ⟨(handle_file_event files s.svc fe).1, s.conns, s.log⟩ := by
          simp [evStep, fileStep, hmsg]
        rw [hstep, trace_msgs files ss0 hok c evs
          ⟨(handle_file_event files s.svc fe).1, s.conns, s.log⟩ hc hfr']
        have hexp : expectedMsgs files s.svc (Ev.file fe :: evs) =
            expectedMsgs files (handle_file_event files s.svc fe).1 evs := by
          simp [expectedMsgs, hmsg]
        rw [hexp]
      · have hstep : evStep files s (Ev.file fe) =
            ⟨(handle_file_event files s.svc fe).1, s.conns,
             s.log ++ s.conns.map (fun cc => (cc, m))⟩ := by
          simp [evStep, fileStep, hmsg]
        rw [hstep, trace_msgs files ss0 hok c evs
          ⟨(handle_file_event files s.svc fe).1, s.conns,
           s.log ++ s.conns.map (fun cc => (cc, m))⟩ hc hfr',
          msgsTo_append, msgsTo_broadcast, hc]
        have hexp : expectedMsgs files s.svc (Ev.file fe :: evs) =
            m :: expectedMsgs files (handle_file_event files s.svc fe).1 evs := by
          simp [expectedMsgs, hmsg]
        rw [hexp]
        simp [List.replicate]

/-- C1: over any trace, a fresh client that connects and then stays
connected is sent exactly one init frame first, carrying the snapshot read
at connection time, and thereafter exactly the per-transition messages of
the broadcasts that occur while it is connected — one frame per broadcast
and no further init. -/
theorem wsInitThenDeltas (files : Files) (s0 : SrvState) (pre post : List Ev)
    (c : Nat)
    (hok : ∃ ss, get_all files = Except.ok ss)
    (hc0 : s0.conns.count c = 0)
    (hlog0 : msgsTo c s0.log = [])
    (hpre : ∀ e ∈ pre, e ≠ Ev.connect c)
    (hpost : ∀ e ∈ post, e ≠ Ev.connect c ∧ e ≠ Ev.disconnect c) :
    msgsTo c (runTrace files s0 (pre ++ Ev.connect c :: post)).log =
      Msg.init (connectSnap files (runTrace files s0 pre).svc) ::
        expectedMsgs files (connectSvc files (runTrace files s0 pre).svc) post ∧
    ∀ m ∈ expectedMsgs files (connectSvc files (runTrace files s0 pre).svc) post,
      ∀ steps, m ≠ Msg.init steps := by
  obtain ⟨ss0, hok⟩ := hok
  refine ⟨?_, fun m hm => expectedMsgs_no_init files post _ m hm⟩
  rw [runTrace_append, runTrace_cons]
  have hfresh := pre_fresh files c pre s0 hc0 hlog0 hpre
  rw [show evStep files (runTrace files s0 pre) (Ev.connect c) =
      connectStep files (runTrace files s0 pre) c from rfl,
    connectStep_ok files ss0 hok (runTrace files s0 pre) c]
  rw [trace_msgs files ss0 hok c post
      ⟨connectSvc files (runTrace files s0 pre).svc,
       (runTrace files s0 pre).conns ++ [c],
       (runTrace files s0 pre).log ++
         [(c, Msg.init (connectSnap files (runTrace files s0 pre).svc))]⟩
      (by simp [List.count_append, List.count_cons, hfresh.1]) hpost]
  rw [msgsTo_append, hfresh.2]
  simp [msgsTo]

/-- C1 witness: a fresh client connects to a one step folder and then one
modify event is broadcast to it, after its init frame. -/
theorem wsInitThenDeltasWitness :
    (∃ ss, get_all [some sampleFileJson] = Except.ok ss) ∧
    ((⟨⟨[], true, true⟩, [], []⟩ : SrvState).conns.count 0 = 0) ∧
    msgsTo 0 (⟨⟨[], true, true⟩, [], []⟩ : SrvState).log = [] ∧
    (∀ e ∈ ([] : List Ev), e ≠ Ev.connect 0) ∧
    (∀ e ∈ [Ev.file ⟨FileEventType.modified, "/w/01-02.json"⟩],
        e ≠ Ev.connect 0 ∧ e ≠ Ev.disconnect 0) ∧
    (msgsTo 0 (runTrace [some sampleFileJson] ⟨⟨[], true, true⟩, [], []⟩
        ([] ++ Ev.connect 0 ::
          [Ev.file ⟨FileEventType.modified, "/w/01-02.json"⟩])).log =
      Msg.init (connectSnap [some sampleFileJson]
          (runTrace [some sampleFileJson] ⟨⟨[], true, true⟩, [], []⟩ []).svc) ::
        expectedMsgs [some sampleFileJson]
          (connectSvc [some sampleFileJson]
            (runTrace [some sampleFileJson] ⟨⟨[], true, true⟩, [], []⟩ []).svc)
          [Ev.file ⟨FileEventType.modified, "/w/01-02.json"⟩] ∧
     ∀ m ∈ expectedMsgs [some sampleFileJson]
          (connectSvc [some sampleFileJson]
            (runTrace [some sampleFileJson] ⟨⟨[], true, true⟩, [], []⟩ []).svc)
          [Ev.file ⟨FileEventType.modified, "/w/01-02.json"⟩],
       ∀ steps, m ≠ Msg.init steps) :=
  ⟨⟨[sampleStep], rfl⟩, rfl, rfl,
   fun e he => absurd he (List.not_mem_nil e),
   by decide,
   wsInitThenDeltas [some sampleFileJson] ⟨⟨[], true, true⟩, [], []⟩ []
     [Ev.file ⟨FileEventType.modified, "/w/01-02.json"⟩] 0
     ⟨[sampleStep], rfl⟩ rfl rfl
     (fun e he => absurd he (List.not_mem_nil e)) (by decide)⟩

/-- C10 witness: the invariant holds on a sample cache and is preserved by
a concrete delete event. -/
theorem cacheKeyInvariantWitness :
    CacheInv [("01-02", sampleStep)] ∧
    (CacheInv (mkCache [sampleStep]) ∧
     CacheInv (handle_file_event [] ⟨[("01-02", sampleStep)], true, true⟩
        ⟨FileEventType.deleted, "/w/01-02.json"⟩).1.cache) :=
  ⟨by intro p hp; rw [List.mem_singleton.mp hp]; rfl,
   cacheKeyInvariant [] [sampleStep] ⟨[("01-02", sampleStep)], true, true⟩
     ⟨FileEventType.deleted, "/w/01-02.json"⟩
     (by intro p hp; rw [List.mem_singleton.mp hp]; rfl)⟩

end NWatch
